import Mathlib

set_option maxRecDepth 8000

/-!
Verification of the Axon transaction codec and JSON-RPC request decoders.

The transaction codec (src/protocol/src/codec/transaction.rs) is embedded over
an RLP item tree: the external rlp crate parses wire bytes into a tree of
byte-strings and lists, and the codec under verification walks that tree.
Byte-level serialization of a tree is also defined (for the typed-envelope
discriminator and the hash model).  The JSON-RPC request decoders
(src/core/api/src/jsonrpc/web3_types.rs and web3_blocknumber.rs) are embedded
over a JSON value tree, with serde's shape dispatch made explicit.
-/

/-- A wire byte. -/
abbrev Byte := Fin 256

instance instNeZero256Pow (w : Nat) : NeZero (256 ^ w) := ⟨pow_ne_zero _ (by norm_num)⟩

/-- Big-endian value of a list of digits in base 256. -/
def bevN (l : List Nat) : Nat := l.foldl (fun a b => a * 256 + b) 0

/-- Fuel-driven minimal big-endian expansion; `fuel ≥ n` makes it total. -/
def beGo : Nat → Nat → List Nat
  | 0, _ => []
  | fuel + 1, n => if n = 0 then [] else beGo fuel (n / 256) ++ [n % 256]

/-- Minimal big-endian base-256 digits of `n` (no leading zero, `0 ↦ []`). -/
def natToBEN (n : Nat) : List Nat := beGo n n

def byteOfNat (n : Nat) : Byte := ⟨n % 256, Nat.mod_lt n (by norm_num)⟩

/-- Minimal big-endian bytes of `n`. -/
def natToBE (n : Nat) : List Byte := (natToBEN n).map byteOfNat

/-- Big-endian value of a byte string. -/
def beVal (l : List Byte) : Nat := bevN (l.map Fin.val)

/-- Left-pad a byte string with zeros to width `w` (fixed-width hashes). -/
def padLeft (w : Nat) (l : List Byte) : List Byte :=
  List.replicate (w - l.length) 0 ++ l

/-- Whether a byte string has a leading zero byte (rejected by uint decode). -/
def hasLeadingZero : List Byte → Bool
  | [] => false
  | x :: _ => x.val == 0

/-- Accumulator form of `bevN`, needed to bound decoded values inside the
decoder definitions below. -/
def foldlBE (l : List Nat) : ∀ a : Nat,
    List.foldl (fun x y => x * 256 + y) a l = a * 256 ^ l.length + bevN l := by
  induction l with
  | nil => intro a; simp [bevN]
  | cons b t ih =>
    intro a
    have hb : bevN (b :: t) = b * 256 ^ t.length + bevN t := by
      unfold bevN
      simpa using ih b
    simp only [List.foldl_cons, List.length_cons, hb]
    rw [ih (a * 256 + b)]
    ring

def bevN_cons (b : Nat) (t : List Nat) :
    bevN (b :: t) = b * 256 ^ t.length + bevN t := by
  unfold bevN
  simpa using foldlBE t b

/-- A byte string of length `k` denotes a value below `256 ^ k`. -/
def beVal_lt (l : List Byte) : beVal l < 256 ^ l.length := by
  induction l with
  | nil => simp [beVal, bevN]
  | cons x t ih =>
    have hx : beVal (x :: t) = x.val * 256 ^ t.length + beVal t := by
      unfold beVal
      simpa [beVal] using bevN_cons x.val (t.map Fin.val)
    rw [hx]
    have h1 : x.val * 256 ^ t.length ≤ 255 * 256 ^ t.length :=
      Nat.mul_le_mul_right _ (Nat.lt_succ_iff.mp x.isLt)
    calc x.val * 256 ^ t.length + beVal t
        < x.val * 256 ^ t.length + 256 ^ t.length := by omega
      _ ≤ 255 * 256 ^ t.length + 256 ^ t.length := by omega
      _ = 256 ^ (t.length + 1) := by ring
      _ = 256 ^ (x :: t).length := by simp

/-- The tree shape the rlp crate hands to `Decodable::decode`: an item is
either a byte string or a list of items. -/
inductive RlpItem where
  | bytes : List Byte → RlpItem
  | list : List RlpItem → RlpItem

/-- The rlp crate's `DecoderError` variants used by this codec. -/
inductive DecoderError where
  | rlpIncorrectListLen
  | rlpExpectedToDecodeBytes
  | rlpExpectedToDecodeList
  | rlpIsTooShort
  | rlpIsTooBig
  | rlpInvalidIndirection
  | rlpInvalidLength
  | custom (msg : String)
deriving DecidableEq

instance exceptDecEq {ε α : Type} [DecidableEq ε] [DecidableEq α] :
    DecidableEq (Except ε α) := fun x y =>
  match x, y with
  | .ok a, .ok b =>
    if h : a = b then isTrue (by rw [h]) else isFalse (by intro hh; cases hh; exact h rfl)
  | .error a, .error b =>
    if h : a = b then isTrue (by rw [h]) else isFalse (by intro hh; cases hh; exact h rfl)
  | .ok _, .error _ => isFalse (by intro hh; cases hh)
  | .error _, .ok _ => isFalse (by intro hh; cases hh)

/-- `Rlp::item_count`: only lists have an item count. -/
def itemCount : RlpItem → Except DecoderError Nat
  | .bytes _ => .error .rlpExpectedToDecodeList
  | .list l => .ok l.length

/-- `Rlp::at(i)`: the i-th element of a list item. -/
def rlpAt : RlpItem → Nat → Except DecoderError RlpItem
  | .bytes _, _ => .error .rlpExpectedToDecodeList
  | .list l, i =>
    match l[i]? with
    | some it => .ok it
    | none => .error .rlpIsTooShort

/-- rlp crate decoding of an unsigned integer of at most `w` bytes
(minimal big-endian: no leading zero byte). -/
def decUint (w : Nat) : RlpItem → Except DecoderError (Fin (256 ^ w))
  | .list _ => .error .rlpExpectedToDecodeBytes
  | .bytes b =>
    if hasLeadingZero b then .error .rlpInvalidIndirection
    else if h : b.length ≤ w then
      .ok ⟨beVal b, lt_of_lt_of_le (beVal_lt b) (Nat.pow_le_pow_right (by norm_num) h)⟩
    else .error .rlpIsTooBig

/-- rlp crate decoding of a fixed-width hash of exactly `w` bytes. -/
def decFixed (w : Nat) : RlpItem → Except DecoderError (Fin (256 ^ w))
  | .list _ => .error .rlpExpectedToDecodeBytes
  | .bytes b =>
    if h : b.length = w then .ok ⟨beVal b, h ▸ beVal_lt b⟩
    else .error .rlpInvalidLength

/-- rlp crate decoding of an opaque byte string (`Bytes`). -/
def decBytes : RlpItem → Except DecoderError (List Byte)
  | .bytes b => .ok b
  | .list _ => .error .rlpExpectedToDecodeBytes

/-- `TransactionAction`: a call to a 20-byte address or a contract creation. -/
inductive TransactionAction where
  | call (addr : Fin (256 ^ 20))
  | create
deriving DecidableEq

/-- Modelled from the spec: wire field [5] — `action (0 = call-to-address +
20-byte address, 1 = contract-creation)`.  The rlp impls for
`TransactionAction` live outside this repository's sources; a call carries its
20-byte address, a creation is the empty byte string. -/
def decAction : RlpItem → Except DecoderError TransactionAction
  | .list _ => .error .rlpExpectedToDecodeBytes
  | .bytes b =>
    if b.isEmpty then .ok .create
    else if h : b.length = 20 then .ok (.call ⟨beVal b, h ▸ beVal_lt b⟩)
    else .error .rlpInvalidLength

/-- Encoding of an unsigned integer below `256 ^ w`: minimal big-endian. -/
def encUint (w : Nat) (n : Fin (256 ^ w)) : RlpItem := .bytes (natToBE n.val)

/-- Encoding of a fixed-width hash: exactly `w` big-endian bytes. -/
def encFixed (w : Nat) (n : Fin (256 ^ w)) : RlpItem := .bytes (padLeft w (natToBE n.val))

/-- Modelled from the spec: the encoding counterpart of `decAction`. -/
def encAction : TransactionAction → RlpItem
  | .create => .bytes []
  | .call a => .bytes (padLeft 20 (natToBE a.val))

/-- `AccessListItem { address, slots }`. -/
structure AccessListItem where
  address : Fin (256 ^ 20)
  slots : List (Fin (256 ^ 32))
deriving DecidableEq

/-- The unsigned transaction payload (`Transaction`). -/
structure Transaction where
  nonce : Fin (256 ^ 32)
  max_priority_fee_per_gas : Fin (256 ^ 32)
  gas_price : Fin (256 ^ 32)
  gas_limit : Fin (256 ^ 32)
  action : TransactionAction
  value : Fin (256 ^ 32)
  data : List Byte
  access_list : List AccessListItem
deriving DecidableEq

/-- `SignatureComponents { standard_v, r, s }`. -/
structure SignatureComponents where
  standard_v : Fin (256 ^ 1)
  r : Fin (256 ^ 32)
  s : Fin (256 ^ 32)
deriving DecidableEq

/-- `UnverifiedTransaction { unsigned, hash, signature, chain_id }`. -/
structure UnverifiedTransaction where
  unsigned : Transaction
  hash : Fin (256 ^ 32)
  signature : Option SignatureComponents
  chain_id : Fin (256 ^ 8)
deriving DecidableEq

/-- One access-list entry as appended by `rlp_append`:
`[address, [slot, ...]]`. -/
def encAccessItem (a : AccessListItem) : RlpItem :=
  .list [encFixed 20 a.address, .list (a.slots.map (encFixed 32))]

/-- The nine unsigned fields appended by `rlp_append`, in source order:
chain id, nonce, max-priority-fee, gas price, gas limit, action, value, data,
access list. -/
def unsignedFieldItems (chain_id : Fin (256 ^ 8)) (t : Transaction) : List RlpItem :=
  [encUint 8 chain_id, encUint 32 t.nonce, encUint 32 t.max_priority_fee_per_gas,
   encUint 32 t.gas_price, encUint 32 t.gas_limit, encAction t.action,
   encUint 32 t.value, .bytes t.data, .list (t.access_list.map encAccessItem)]

/-- `SignatureComponents::rlp_append`: recovery id, r, s (three items),
or nothing when no signature is present. -/
def sigFieldItems : Option SignatureComponents → List RlpItem
  | none => []
  | some sg => [encUint 1 sg.standard_v, encFixed 32 sg.r, encFixed 32 sg.s]

/-- `impl Encodable for UnverifiedTransaction`, `rlp_append`: a list of 12
items when signed (9 unsigned fields then the 3 signature fields) and 9 items
when unsigned. -/
def rlp_append (tx : UnverifiedTransaction) : RlpItem :=
  .list (unsignedFieldItems tx.chain_id tx.unsigned ++ sigFieldItems tx.signature)

/-- RLP header bytes for a payload of length `len` (`offset` 128 for strings,
192 for lists). -/
def lenHeader (offset len : Nat) : List Nat :=
  if len ≤ 55 then [offset + len]
  else (offset + 55 + (natToBEN len).length) :: natToBEN len

/-- A byte string serialized as itself: a single byte below 128. -/
def isSingleSmall : List Byte → Bool
  | [x] => decide (x.val < 128)
  | _ => false

/-- RLP serialization of one byte string. -/
def serStr (b : List Byte) : List Nat :=
  if isSingleSmall b then b.map Fin.val
  else lenHeader 128 b.length ++ b.map Fin.val

/-- RLP serialization of a list item from its members' serializations. -/
def serPayloads (ps : List (List Nat)) : List Nat :=
  lenHeader 192 ps.flatten.length ++ ps.flatten

/-- Fuel-driven RLP byte serialization of an arbitrary item tree (the rlp
crate's `RlpStream::out`); any fuel exceeding the list-nesting depth is
exact. -/
def serGo : Nat → RlpItem → List Nat
  | 0, _ => []
  | _ + 1, .bytes b => serStr b
  | fuel + 1, .list items => serPayloads (items.map (serGo fuel))

/-- Serialization of one storage-slot item. -/
def serSlot (h : Fin (256 ^ 32)) : List Nat := serStr (padLeft 32 (natToBE h.val))

/-- Serialization of one access-list entry `[address, [slot, ...]]`. -/
def serAccessItem (a : AccessListItem) : List Nat :=
  serPayloads [serStr (padLeft 20 (natToBE a.address.val)),
               serPayloads (a.slots.map serSlot)]

/-- Serialization of the action item. -/
def serAction : TransactionAction → List Nat
  | .create => serStr []
  | .call a => serStr (padLeft 20 (natToBE a.val))

/-- Serializations of the nine unsigned field items, in source order. -/
def serUnsignedPayloads (chain_id : Fin (256 ^ 8)) (t : Transaction) : List (List Nat) :=
  [serStr (natToBE chain_id.val), serStr (natToBE t.nonce.val),
   serStr (natToBE t.max_priority_fee_per_gas.val), serStr (natToBE t.gas_price.val),
   serStr (natToBE t.gas_limit.val), serAction t.action, serStr (natToBE t.value.val),
   serStr t.data, serPayloads (t.access_list.map serAccessItem)]

/-- Serializations of the three signature field items, when present. -/
def serSigPayloads : Option SignatureComponents → List (List Nat)
  | none => []
  | some sg =>
    [serStr (natToBE sg.standard_v.val), serStr (padLeft 32 (natToBE sg.r.val)),
     serStr (padLeft 32 (natToBE sg.s.val))]

/-- `rlp_bytes`: the single typed-envelope discriminator byte 0x02 followed by
the RLP serialization of the appended list (proved below to coincide with
`serGo` on `rlp_append` at every sufficient fuel). -/
def rlp_bytes (tx : UnverifiedTransaction) : List Nat :=
  2 :: serPayloads (serUnsignedPayloads tx.chain_id tx.unsigned ++ serSigPayloads tx.signature)

/-- Modelled from the spec: `hash` is always the hash of the canonical
encoding of the unsigned payload plus chain id.  The concrete digest (keccak,
implemented outside this repository's sources) is abstracted as a computable
digest of that canonical unsigned encoding. -/
def txHash (chain_id : Fin (256 ^ 8)) (t : Transaction) : Fin (256 ^ 32) :=
  ⟨bevN (serPayloads (serUnsignedPayloads chain_id t)) % 256 ^ 32,
   Nat.mod_lt _ (by positivity)⟩

/-- `UnverifiedTransaction::hash()`: the value with its hash field recomputed
from the unsigned fields plus chain id. -/
def UnverifiedTransaction.recomputeHash (tx : UnverifiedTransaction) : UnverifiedTransaction :=
  { tx with hash := txHash tx.chain_id tx.unsigned }

/-- Except-valued elementwise decoding of a list, first error wins (the
semantics of `Rlp::list_at` and of the access-list loop). -/
def exceptMapM {ε α β : Type} (f : α → Except ε β) : List α → Except ε (List β)
  | [] => .ok []
  | x :: xs =>
    match f x with
    | .error e => .error e
    | .ok y =>
      match exceptMapM f xs with
      | .error e => .error e
      | .ok ys => .ok (y :: ys)

/-- `Rlp::list_at(i)`: element `i` must be a list; decode each of its items. -/
def listAt {α : Type} (r : RlpItem) (i : Nat) (dec : RlpItem → Except DecoderError α) :
    Except DecoderError (List α) := do
  let it ← rlpAt r i
  match it with
  | .list l => exceptMapM dec l
  | .bytes _ => .error .rlpExpectedToDecodeList

/-- `Rlp::val_at(i)`: fetch element `i` and decode it. -/
def valAt {α : Type} (r : RlpItem) (i : Nat) (dec : RlpItem → Except DecoderError α) :
    Except DecoderError α :=
  (rlpAt r i).bind dec

/-- One iteration of the decode access-list loop: the entry must be a 2-item
list, giving `AccessListItem { address: val_at(0), slots: list_at(1) }`. -/
def decodeAccessItem (acc : RlpItem) : Except DecoderError AccessListItem := do
  let n ← itemCount acc
  if n ≠ 2 then .error (.custom "Unknown access list length")
  else do
    let address ← valAt acc 0 (decFixed 20)
    let slots ← listAt acc 1 (decFixed 32)
    .ok { address, slots }

/-- The decode access-list loop over `accl_rlp`: iterate the entries of the
list at position 8, decoding each in order. -/
def decodeAccessList : RlpItem → Except DecoderError (List AccessListItem)
  | .bytes _ => .error .rlpExpectedToDecodeList
  | .list l => exceptMapM decodeAccessItem l

/-- `impl Decodable for UnverifiedTransaction`: require exactly 12 items,
decode the fields positionally, rebuild the access list, read the signature
from positions 9-11, then recompute the hash. -/
def UnverifiedTransaction.decode (r : RlpItem) : Except DecoderError UnverifiedTransaction := do
  let cnt ← itemCount r
  if cnt ≠ 12 then .error .rlpIncorrectListLen
  else do
    let chain_id ← valAt r 0 (decUint 8)
    let nonce ← valAt r 1 (decUint 32)
    let max_priority_fee_per_gas ← valAt r 2 (decUint 32)
    let gas_price ← valAt r 3 (decUint 32)
    let gas_limit ← valAt r 4 (decUint 32)
    let action ← valAt r 5 decAction
    let value ← valAt r 6 (decUint 32)
    let data ← valAt r 7 decBytes
    let accl_rlp ← rlpAt r 8
    let access_list ← decodeAccessList accl_rlp
    let standard_v ← valAt r 9 (decUint 1)
    let sig_r ← valAt r 10 (decFixed 32)
    let sig_s ← valAt r 11 (decFixed 32)
    let utx : UnverifiedTransaction :=
      { unsigned := { nonce, max_priority_fee_per_gas, gas_price, gas_limit,
                      action, value, data, access_list },
        hash := 0,
        signature := some { standard_v, r := sig_r, s := sig_s },
        chain_id }
    .ok utx.recomputeHash

/-- A JSON value, as seen by the serde deserializers. -/
inductive Json where
  | null
  | bool (b : Bool)
  | num (n : Int)
  | str (s : String)
  | arr (items : List Json)
  | obj (fields : List (String × Json))

/-- `serde_json::Value::is_null`. -/
def Json.isNull : Json → Bool
  | .null => true
  | _ => false

/-- Deserialization errors: `serde::de::Error::custom` messages plus the
invalid-type error serde raises for an unexpected JSON shape. -/
inductive DeErr where
  | custom (msg : String)
  | invalidType
deriving DecidableEq

/-- `str::starts_with("0x")` (the prefix is two ASCII bytes). -/
def startsWith0x (s : String) : Bool :=
  match s.data with
  | '0' :: 'x' :: _ => true
  | _ => false

/-- `&value[2..]` after a "0x" prefix check. -/
def strDrop2 (s : String) : String := String.mk (s.data.drop 2)

/-- Value of one hexadecimal digit character. -/
def hexDigitVal (c : Char) : Option Nat :=
  if '0' ≤ c ∧ c ≤ '9' then some (c.toNat - '0'.toNat)
  else if 'a' ≤ c ∧ c ≤ 'f' then some (c.toNat - 'a'.toNat + 10)
  else if 'A' ≤ c ∧ c ≤ 'F' then some (c.toNat - 'A'.toNat + 10)
  else none

/-- Digit loop of `u64::from_str_radix(_, 16)`: overflow-checked accumulation;
with a negative sign every step must stay at zero. -/
def radixGo (neg : Bool) : List Char → Nat → Option Nat
  | [], r => some r
  | c :: cs, r =>
    match hexDigitVal c with
    | none => none
    | some d =>
      if neg then
        if 2 ^ 64 ≤ r * 16 then none
        else if r * 16 < d then none
        else radixGo neg cs (r * 16 - d)
      else
        if 2 ^ 64 ≤ r * 16 + d then none
        else radixGo neg cs (r * 16 + d)

/-- Modelled from the spec: `u64::from_str_radix(_, 16)` from the Rust
standard library — optional sign, at least one digit, hex digits,
overflow-checked against 2^64. -/
def fromStrRadix16 (s : String) : Option Nat :=
  match s.data with
  | [] => none
  | c :: cs =>
    if c = '+' then if cs.isEmpty then none else radixGo false cs 0
    else if c = '-' then if cs.isEmpty then none else radixGo true cs 0
    else radixGo false (c :: cs) 0

/-- The canonical block identifier `BlockId` of web3_types.rs. -/
inductive BlockId where
  | num (n : Nat)
  | hash (h : Nat)
  | latest
deriving DecidableEq

/-- `BlockIdVisitor::visit_str`: "latest", or a 0x-prefixed hex number;
anything else is the missing-0x-prefix error. -/
def blockIdVisitStr (value : String) : Except DeErr BlockId :=
  if value = "latest" then .ok .latest
  else if startsWith0x value then
    match fromStrRadix16 (strDrop2 value) with
    | some n => .ok (.num n)
    | none => .error (.custom "Invalid block number")
  else .error (.custom "Invalid block number: missing 0x prefix")

/-- `BlockIdVisitor::visit_map`: the loop reads at most one key — a
"blockNumber" entry (0x-prefixed hex, then break), any other first key is the
unknown-key error, and an empty object is "Invalid input". -/
def blockIdVisitMap : List (String × Json) → Except DeErr BlockId
  | [] => .error (.custom "Invalid input")
  | (key, v) :: _ =>
    if key = "blockNumber" then
      match v with
      | .str value =>
        if startsWith0x value then
          match fromStrRadix16 (strDrop2 value) with
          | some n => .ok (.num n)
          | none => .error (.custom "Invalid block number")
        else .error (.custom "Invalid block number: missing 0x prefix")
      | _ => .error .invalidType
    else .error (.custom (String.append "Unknown key: " key))

/-- `impl Deserialize for BlockId` via `deserialize_any`: strings go to
`visit_str`, maps to `visit_map`, any other JSON shape is a type error. -/
def blockIdDeserialize : Json → Except DeErr BlockId
  | .str s => blockIdVisitStr s
  | .obj kvs => blockIdVisitMap kvs
  | _ => .error .invalidType

/-- Option-valued elementwise parse of a list (first failure wins). -/
def optMapM {α β : Type} (p : α → Option β) : List α → Option (List β)
  | [] => some []
  | x :: xs =>
    match p x with
    | none => none
    | some y =>
      match optMapM p xs with
      | none => none
      | some ys => some (y :: ys)

/-- Modelled from the spec: serde deserialization of a 256-bit hash — a
string "0x" followed by exactly 64 hex digits (the `H256` serde impl lives
outside this repository's sources). -/
def parseH256 : Json → Option Nat
  | .str s =>
    if startsWith0x s then
      match optMapM hexDigitVal (s.data.drop 2) with
      | some ds => if ds.length = 64 then some (ds.foldl (fun a d => a * 16 + d) 0) else none
      | none => none
    else none
  | _ => none

/-- The loosely-typed `Web3BlockNumber` of web3_types.rs (its Earliest
variant is commented out in this file's source). -/
inductive Web3BlockNumber where
  | hash (h : Nat) (require_canonical : Bool)
  | num (n : Nat)
  | latest
  | pending
deriving DecidableEq

/-- `Web3BlockNumberVisitor::visit_str` of web3_types.rs: "latest",
"pending", or a 0x-prefixed hex number; anything else is the
missing-0x-prefix error. -/
def wbnVisitStr (value : String) : Except DeErr Web3BlockNumber :=
  if value = "latest" then .ok .latest
  else if value = "pending" then .ok .pending
  else if startsWith0x value then
    match fromStrRadix16 (strDrop2 value) with
    | some n => .ok (.num n)
    | none => .error (.custom "Invalid block number")
  else .error (.custom "Invalid block number: missing 0x prefix")

/-- `Web3BlockNumberVisitor::visit_map` of web3_types.rs: the key loop with
its running `(require_canonical, block_number, block_hash)` state — a
"Web3BlockNumber" hex entry returns a number at once, "blockHash" and
"requireCanonical" update the state, any other key is the unknown-key error;
at the end a number wins over a hash, and neither is "Invalid input". -/
def wbnVisitMap : List (String × Json) → Bool → Option Nat → Option Nat →
    Except DeErr Web3BlockNumber
  | [], rc, bn, bh =>
    match bn with
    | some n => .ok (.num n)
    | none =>
      match bh with
      | some h => .ok (.hash h rc)
      | none => .error (.custom "Invalid input")
  | (key, v) :: rest, rc, bn, bh =>
    if key = "Web3BlockNumber" then
      match v with
      | .str value =>
        if startsWith0x value then
          match fromStrRadix16 (strDrop2 value) with
          | some n => .ok (.num n)
          | none => .error (.custom "Invalid block number")
        else .error (.custom "Invalid block number: missing 0x prefix")
      | _ => .error .invalidType
    else if key = "blockHash" then
      match parseH256 v with
      | some h => wbnVisitMap rest rc bn (some h)
      | none => .error .invalidType
    else if key = "requireCanonical" then
      match v with
      | .bool b => wbnVisitMap rest b bn bh
      | _ => .error .invalidType
    else .error (.custom (String.append "Unknown key: " key))

/-- `impl Deserialize for Web3BlockNumber` (web3_types.rs) via
`deserialize_any`. -/
def web3BlockNumberDeserialize : Json → Except DeErr Web3BlockNumber
  | .str s => wbnVisitStr s
  | .obj kvs => wbnVisitMap kvs false none none
  | _ => .error .invalidType

/-- `VariadicValue<T>`. -/
inductive VariadicValue (α : Type) where
  | single (t : α)
  | multiple (ts : List α)
  | null
deriving DecidableEq

/-- `from_value::<Vec<T>>`: the value must be a JSON array whose every element
parses as a `T`. -/
def arrayParse {α : Type} (p : Json → Option α) : Json → Option (List α)
  | .arr items => optMapM p items
  | _ => none

/-- `impl Deserialize for VariadicValue<T>` over a scalar parser `p`
(`from_value::<T>`): null, else scalar first, else array, else the
invalid-variadic error. -/
def variadicFromJson {α : Type} (p : Json → Option α) (v : Json) :
    Except DeErr (VariadicValue α) :=
  if v.isNull then .ok .null
  else
    match p v with
    | some t => .ok (.single t)
    | none =>
      match arrayParse p v with
      | some ts => .ok (.multiple ts)
      | none => .error (.custom "Invalid variadic value type")

/-- The raw filter request `ChangeWeb3Filter` (addresses and topics as plain
numerals for the 160/256-bit values). -/
structure ChangeWeb3Filter where
  from_block : Option Web3BlockNumber
  to_block : Option Web3BlockNumber
  block_hash : Option Nat
  address : Option (VariadicValue Nat)
  topics : Option (List (VariadicValue Nat))
  limit : Option Nat
deriving DecidableEq

/-- The normalized `Filter` (primed: Mathlib already owns the name `Filter`). -/
structure Filter' where
  from_block : BlockId
  to_block : BlockId
  address : Option (List Nat)
  topics : List (Option (List Nat))
  limit : Option Nat
deriving DecidableEq

/-- The `num_to_id` closure of `ChangeWeb3Filter::try_into`. -/
def num_to_id : Web3BlockNumber → BlockId
  | .hash h _ => .hash h
  | .num n => .num n
  | .latest => .latest
  | .pending => .latest

/-- The Null/Single/Multiple expansion used for both the address and each
topic slot. -/
def variadicToVecOpt {α : Type} : VariadicValue α → Option (List α)
  | .null => none
  | .single a => some [a]
  | .multiple a => some a

/-- `ChangeWeb3Filter::try_into`: collapse to the block hash when present,
otherwise map the from/to identifiers (defaulting to Latest); expand the
address; take at most four topic entries, expand each, and pad to exactly
four slots with match-any. -/
def ChangeWeb3Filter.try_into (self : ChangeWeb3Filter) : Filter' :=
  let fromTo : BlockId × BlockId :=
    match self.block_hash with
    | some h => (.hash h, .hash h)
    | none =>
      ((match self.from_block with
        | none => .latest
        | some b => num_to_id b),
       (match self.to_block with
        | none => .latest
        | some b => num_to_id b))
  let expanded : List (Option (List Nat)) :=
    match self.topics with
    | none => []
    | some topics => (topics.take 4).map variadicToVecOpt
  { from_block := fromTo.1,
    to_block := fromTo.2,
    address := self.address.bind variadicToVecOpt,
    topics := [expanded.getD 0 none, expanded.getD 1 none,
               expanded.getD 2 none, expanded.getD 3 none],
    limit := self.limit }

/-- The `BlockId` of the external ethcore crate, as used by
web3_blocknumber.rs (`block_number_to_id`'s match arms exhibit its
constructors). -/
inductive EthBlockId where
  | hash (h : Nat)
  | number (n : Nat)
  | earliest
  | latest
deriving DecidableEq

/-- The `Web3BlockNumber` of web3_blocknumber.rs — the near-duplicate parser
type whose Earliest variant is live. -/
inductive WbBlockNumber where
  | hash (h : Nat) (require_canonical : Bool)
  | num (n : Nat)
  | latest
  | earliest
  | pending
deriving DecidableEq

/-- `block_number_to_id` of web3_blocknumber.rs; the source panics on
`Pending`, modelled as `none`. -/
def block_number_to_id : WbBlockNumber → Option EthBlockId
  | .hash h _ => some (.hash h)
  | .num n => some (.number n)
  | .earliest => some .earliest
  | .latest => some .latest
  | .pending => none

/-- A small concrete unsigned payload used as a test vector. -/
def sampleTransaction : Transaction :=
  { nonce := 1, max_priority_fee_per_gas := 2, gas_price := 3, gas_limit := 4,
    action := .create, value := 5,
    data := [7, 8],
    access_list := [{ address := 9, slots := [10, 11] }, { address := 12, slots := [] }] }

/-- A concrete signature component value. -/
def sampleSig : SignatureComponents := { standard_v := 1, r := 12, s := 13 }

/-- A concrete signed transaction with its hash already canonical. -/
def sampleSignedTx : UnverifiedTransaction :=
  { unsigned := sampleTransaction, hash := txHash 5 sampleTransaction,
    signature := some sampleSig, chain_id := 5 }

/-- A concrete unsigned transaction (no signature). -/
def sampleUnsignedTx : UnverifiedTransaction :=
  { unsigned := sampleTransaction, hash := 0, signature := none, chain_id := 5 }

/-- A concrete scalar parser (`from_value::<i64>`) for variadic tests. -/
def sampleIntParse : Json → Option Int
  | .num n => some n
  | _ => none

/-- A concrete raw filter request carrying a block hash. -/
def sampleFilterWithHash : ChangeWeb3Filter :=
  { from_block := some .pending, to_block := some (.num 7), block_hash := some 99,
    address := some (.single 21), topics := none, limit := none }

theorem bevN_append (l1 l2 : List Nat) :
    bevN (l1 ++ l2) = bevN l1 * 256 ^ l2.length + bevN l2 := by
  unfold bevN
  rw [List.foldl_append]
  exact foldlBE l2 (bevN l1)

theorem bevN_singleton (x : Nat) : bevN [x] = x := by
  simp [bevN]

theorem beGo_zero_fuel (f : Nat) : beGo f 0 = [] := by
  cases f <;> simp [beGo]

theorem beGo_bevN : ∀ fuel n, n ≤ fuel → bevN (beGo fuel n) = n := by
  intro fuel
  induction fuel with
  | zero =>
    intro n hn
    have h0 : n = 0 := by omega
    subst h0
    simp [beGo, bevN]
  | succ f ih =>
    intro n hn
    by_cases h0 : n = 0
    · subst h0
      simp [beGo, bevN]
    · have hd : n / 256 < n := Nat.div_lt_self (Nat.pos_of_ne_zero h0) (by norm_num)
      simp only [beGo, if_neg h0]
      rw [bevN_append, ih (n / 256) (by omega), bevN_singleton]
      simp only [List.length_singleton, pow_one]
      omega

theorem beGo_length : ∀ fuel n w, n ≤ fuel → n < 256 ^ w → (beGo fuel n).length ≤ w := by
  intro fuel
  induction fuel with
  | zero =>
    intro n w hn _
    have h0 : n = 0 := by omega
    subst h0
    simp [beGo]
  | succ f ih =>
    intro n w hn hw
    by_cases h0 : n = 0
    · subst h0
      simp [beGo]
    · cases w with
      | zero =>
        simp at hw
        omega
      | succ w' =>
        have hd : n / 256 < n := Nat.div_lt_self (Nat.pos_of_ne_zero h0) (by norm_num)
        have hdb : n / 256 < 256 ^ w' := by
          rw [Nat.div_lt_iff_lt_mul (by norm_num : (0:Nat) < 256)]
          calc n < 256 ^ (w' + 1) := hw
            _ = 256 ^ w' * 256 := by ring
        simp only [beGo, if_neg h0, List.length_append, List.length_singleton]
        have := ih (n / 256) w' (by omega) hdb
        omega

theorem beGo_mem_lt : ∀ fuel n x, x ∈ beGo fuel n → x < 256 := by
  intro fuel
  induction fuel with
  | zero =>
    intro n x hx
    simp [beGo] at hx
  | succ f ih =>
    intro n x hx
    by_cases h0 : n = 0
    · subst h0
      simp [beGo] at hx
    · simp only [beGo, if_neg h0, List.mem_append, List.mem_singleton] at hx
      rcases hx with hx | hx
      · exact ih (n / 256) x hx
      · subst hx
        exact Nat.mod_lt _ (by norm_num)

theorem beGo_head_ne : ∀ fuel n x xs, n ≤ fuel → beGo fuel n = x :: xs → x ≠ 0 := by
  intro fuel
  induction fuel with
  | zero =>
    intro n x xs hn h
    simp [beGo] at h
  | succ f ih =>
    intro n x xs hn h
    by_cases h0 : n = 0
    · subst h0
      simp [beGo] at h
    · have hd : n / 256 < n := Nat.div_lt_self (Nat.pos_of_ne_zero h0) (by norm_num)
      simp only [beGo, if_neg h0] at h
      cases hsplit : beGo f (n / 256) with
      | nil =>
        rw [hsplit] at h
        simp at h
        have hq : n / 256 = 0 := by
          have := beGo_bevN f (n / 256) (by omega)
          rw [hsplit] at this
          simpa [bevN] using this.symm
        have hlt : n < 256 := by omega
        have : x = n % 256 := h.1.symm
        subst this
        rw [Nat.mod_eq_of_lt hlt]
        exact h0
      | cons y ys =>
        rw [hsplit] at h
        simp at h
        have hxy : x = y := h.1.symm
        subst hxy
        exact ih (n / 256) x ys (by omega) hsplit

theorem natToBEN_bevN (n : Nat) : bevN (natToBEN n) = n := beGo_bevN n n le_rfl

theorem natToBEN_length {n w : Nat} (h : n < 256 ^ w) : (natToBEN n).length ≤ w :=
  beGo_length n n w le_rfl h

theorem natToBE_map_val (n : Nat) : (natToBE n).map Fin.val = natToBEN n := by
  unfold natToBE
  rw [List.map_map]
  have h : ∀ x ∈ natToBEN n, (Fin.val ∘ byteOfNat) x = id x := by
    intro x hx
    simp [byteOfNat, Nat.mod_eq_of_lt (beGo_mem_lt n n x hx)]
  rw [List.map_congr_left h, List.map_id]

theorem beVal_natToBE (n : Nat) : beVal (natToBE n) = n := by
  unfold beVal
  rw [natToBE_map_val, natToBEN_bevN]

theorem natToBE_length {n w : Nat} (h : n < 256 ^ w) : (natToBE n).length ≤ w := by
  simpa [natToBE] using natToBEN_length h

theorem hasLeadingZero_natToBE (n : Nat) : hasLeadingZero (natToBE n) = false := by
  cases hsplit : natToBEN n with
  | nil => simp [natToBE, hsplit, hasLeadingZero]
  | cons x xs =>
    have hx : x ≠ 0 := beGo_head_ne n n x xs le_rfl hsplit
    have hx2 : x < 256 := by
      apply beGo_mem_lt n n x
      show x ∈ natToBEN n
      rw [hsplit]
      exact List.mem_cons_self x xs
    simp [natToBE, hsplit, hasLeadingZero, byteOfNat, Nat.mod_eq_of_lt hx2, hx]

theorem bevN_replicate0 (k : Nat) : bevN (List.replicate k 0) = 0 := by
  induction k with
  | zero => simp [bevN]
  | succ m ih =>
    rw [List.replicate_succ, bevN_cons, ih]
    simp

theorem beVal_padLeft (w : Nat) (l : List Byte) : beVal (padLeft w l) = beVal l := by
  unfold beVal padLeft
  rw [List.map_append, bevN_append]
  have h0 : (List.replicate (w - l.length) (0 : Byte)).map Fin.val
      = List.replicate (w - l.length) 0 := by
    simp [List.map_replicate]
  rw [h0, bevN_replicate0]
  simp

theorem padLeft_length {w : Nat} {l : List Byte} (h : l.length ≤ w) :
    (padLeft w l).length = w := by
  simp [padLeft]
  omega

@[simp] theorem except_bind_ok {ε α β : Type} (a : α) (f : α → Except ε β) :
    (Except.ok a : Except ε α) >>= f = f a := rfl

@[simp] theorem except_bind_error {ε α β : Type} (e : ε) (f : α → Except ε β) :
    (Except.error e : Except ε α) >>= f = .error e := rfl

@[simp] theorem except_bindF_ok {ε α β : Type} (a : α) (f : α → Except ε β) :
    Except.bind (Except.ok a) f = f a := rfl

@[simp] theorem except_bindF_error {ε α β : Type} (e : ε) (f : α → Except ε β) :
    Except.bind (Except.error e) f = .error e := rfl

theorem decUint_encUint (w : Nat) (n : Fin (256 ^ w)) : decUint w (encUint w n) = .ok n := by
  simp only [decUint, encUint]
  rw [if_neg (by simp [hasLeadingZero_natToBE]), dif_pos (natToBE_length n.isLt)]
  exact congrArg Except.ok (Fin.ext (beVal_natToBE n.val))

theorem decFixed_encFixed (w : Nat) (n : Fin (256 ^ w)) : decFixed w (encFixed w n) = .ok n := by
  simp only [decFixed, encFixed]
  rw [dif_pos (padLeft_length (natToBE_length n.isLt))]
  refine congrArg Except.ok (Fin.ext ?_)
  show beVal (padLeft w (natToBE n.val)) = n.val
  rw [beVal_padLeft, beVal_natToBE]

theorem decAction_encAction (a : TransactionAction) : decAction (encAction a) = .ok a := by
  cases a with
  | create => simp [decAction, encAction]
  | call addr =>
    simp only [decAction, encAction]
    have hlen : (padLeft 20 (natToBE addr.val)).length = 20 :=
      padLeft_length (natToBE_length addr.isLt)
    rw [if_neg (by simp [List.isEmpty_iff]; intro hemp; rw [hemp] at hlen; simp at hlen),
        dif_pos hlen]
    refine congrArg Except.ok (congrArg TransactionAction.call (Fin.ext ?_))
    show beVal (padLeft 20 (natToBE addr.val)) = addr.val
    rw [beVal_padLeft, beVal_natToBE]

theorem exceptMapM_map_ok {ε α β : Type} (g : α → β) (f : β → Except ε α) :
    ∀ l : List α, (∀ x ∈ l, f (g x) = .ok x) → exceptMapM f (l.map g) = .ok l := by
  intro l
  induction l with
  | nil => intro _; simp [exceptMapM]
  | cons x t ih =>
    intro h
    simp only [List.map_cons, exceptMapM]
    rw [h x (List.mem_cons_self x t), ih (fun y hy => h y (List.mem_cons_of_mem x hy))]

theorem decodeAccessItem_enc (a : AccessListItem) :
    decodeAccessItem (encAccessItem a) = .ok a := by
  simp only [decodeAccessItem, encAccessItem, itemCount, except_bind_ok, except_bindF_ok,
    List.length_cons, List.length_nil]
  rw [if_neg (by omega)]
  simp only [valAt, listAt, rlpAt, List.getElem?_cons_zero, List.getElem?_cons_succ,
    except_bind_ok, except_bindF_ok]
  rw [decFixed_encFixed]
  simp only [except_bind_ok, except_bindF_ok]
  rw [exceptMapM_map_ok (encFixed 32) (decFixed 32) a.slots
    (fun x _ => decFixed_encFixed 32 x)]
  rfl

theorem decodeAccessList_enc (al : List AccessListItem) :
    decodeAccessList (.list (al.map encAccessItem)) = .ok al := by
  simp only [decodeAccessList]
  exact exceptMapM_map_ok encAccessItem decodeAccessItem al
    (fun x _ => decodeAccessItem_enc x)

/-- C1 (amended): for every signed transaction value whose hash field is the
recomputed hash of its unsigned payload plus chain id — i.e. every value
producible by this codec — decoding the encoding yields the value back,
preserving access-list entry order; for every unsigned value (signature
absent) the encoding is a 9-item list, which decode rejects with the
wrong-field-count error. -/
theorem tx_codec_round_trip :
    (∀ (tx : UnverifiedTransaction) (sg : SignatureComponents),
        tx.signature = some sg →
        tx.hash = txHash tx.chain_id tx.unsigned →
        UnverifiedTransaction.decode (rlp_append tx) = .ok tx) ∧
    (∀ tx : UnverifiedTransaction, tx.signature = none →
        UnverifiedTransaction.decode (rlp_append tx) = .error .rlpIncorrectListLen) := by
  constructor
  · intro tx sg hsig hhash
    obtain ⟨unsigned, hash, signature, chain_id⟩ := tx
    obtain ⟨nonce, mpf, gp, gl, action, value, data, access_list⟩ := unsigned
    obtain ⟨sv, sr, ss⟩ := sg
    simp only at hsig hhash
    subst hsig
    subst hhash
    simp only [rlp_append, unsignedFieldItems, sigFieldItems, List.cons_append,
      List.nil_append]
    simp only [UnverifiedTransaction.decode, itemCount, List.length_cons,
      List.length_nil, except_bind_ok, except_bindF_ok]
    rw [if_neg (by norm_num)]
    simp only [valAt, rlpAt, List.getElem?_cons_zero, List.getElem?_cons_succ,
      except_bind_ok, except_bindF_ok, decUint_encUint, decFixed_encFixed,
      decAction_encAction, decBytes, decodeAccessList_enc,
      UnverifiedTransaction.recomputeHash]
  · intro tx hsig
    simp only [rlp_append, unsignedFieldItems, sigFieldItems, hsig, List.append_nil]
    simp only [UnverifiedTransaction.decode, itemCount, List.length_cons,
      List.length_nil, except_bind_ok, except_bindF_ok]
    rw [if_pos (by norm_num)]

/-- C1 witness: the concrete signed sample round-trips. -/
theorem tx_codec_round_trip_witness :
    UnverifiedTransaction.decode (rlp_append sampleSignedTx) = .ok sampleSignedTx :=
  tx_codec_round_trip.1 sampleSignedTx sampleSig rfl rfl

/-- C1 counterexample: the claim fails for an unsigned value — its encoding is
a 9-item list and decode rejects it, so decode(encode(v)) is not v. -/
theorem tx_codec_round_trip_cex :
    UnverifiedTransaction.decode (rlp_append sampleUnsignedTx)
      = .error .rlpIncorrectListLen ∧
    UnverifiedTransaction.decode (rlp_append sampleUnsignedTx) ≠ .ok sampleUnsignedTx := by
  refine ⟨rfl, ?_⟩
  intro h
  cases h.symm.trans (rfl :
    UnverifiedTransaction.decode (rlp_append sampleUnsignedTx)
      = .error .rlpIncorrectListLen)

theorem exceptBindF_ne_error {ε α β : Type} {x : Except ε α} {f : α → Except ε β} {e : ε}
    (h1 : x ≠ .error e) (h2 : ∀ a, f a ≠ .error e) : Except.bind x f ≠ .error e := by
  cases x with
  | ok a => simpa using h2 a
  | error e2 => simpa using h1

theorem exceptBind_ne_error {ε α β : Type} {x : Except ε α} {f : α → Except ε β} {e : ε}
    (h1 : x ≠ .error e) (h2 : ∀ a, f a ≠ .error e) : x >>= f ≠ .error e :=
  exceptBindF_ne_error h1 h2

theorem rlpAt_ne_len (r : RlpItem) (i : Nat) : rlpAt r i ≠ .error .rlpIncorrectListLen := by
  cases r with
  | bytes b => simp [rlpAt]
  | list l => cases h : l[i]? <;> simp [rlpAt, h]

theorem decUint_ne_len (w : Nat) (it : RlpItem) :
    decUint w it ≠ .error .rlpIncorrectListLen := by
  cases it with
  | list l => simp [decUint]
  | bytes b =>
    simp only [decUint]
    split_ifs <;> simp

theorem decFixed_ne_len (w : Nat) (it : RlpItem) :
    decFixed w it ≠ .error .rlpIncorrectListLen := by
  cases it with
  | list l => simp [decFixed]
  | bytes b =>
    simp only [decFixed]
    split_ifs <;> simp

theorem decAction_ne_len (it : RlpItem) : decAction it ≠ .error .rlpIncorrectListLen := by
  cases it with
  | list l => simp [decAction]
  | bytes b =>
    simp only [decAction]
    split_ifs <;> simp

theorem decBytes_ne_len (it : RlpItem) : decBytes it ≠ .error .rlpIncorrectListLen := by
  cases it <;> simp [decBytes]

theorem itemCount_ne_len (it : RlpItem) : itemCount it ≠ .error .rlpIncorrectListLen := by
  cases it <;> simp [itemCount]

theorem valAt_ne_len {α : Type} (r : RlpItem) (i : Nat)
    (dec : RlpItem → Except DecoderError α)
    (hdec : ∀ it, dec it ≠ .error .rlpIncorrectListLen) :
    valAt r i dec ≠ .error .rlpIncorrectListLen := by
  unfold valAt
  exact exceptBindF_ne_error (rlpAt_ne_len r i) hdec

theorem exceptMapM_ne {ε α β : Type} {e : ε} (f : α → Except ε β)
    (hf : ∀ x, f x ≠ .error e) : ∀ l, exceptMapM f l ≠ .error e := by
  intro l
  induction l with
  | nil => simp [exceptMapM]
  | cons x t ih =>
    simp only [exceptMapM]
    cases hx : f x with
    | error e2 =>
      intro hc
      injection hc with hdisc
      subst hdisc
      exact hf x hx
    | ok y =>
      cases hrest : exceptMapM f t with
      | error e2 =>
        intro hc
        injection hc with hdisc
        subst hdisc
        exact ih hrest
      | ok ys => simp

theorem listAt_ne_len {α : Type} (r : RlpItem) (i : Nat)
    (dec : RlpItem → Except DecoderError α)
    (hdec : ∀ it, dec it ≠ .error .rlpIncorrectListLen) :
    listAt r i dec ≠ .error .rlpIncorrectListLen := by
  unfold listAt
  refine exceptBind_ne_error (rlpAt_ne_len r i) fun it => ?_
  cases it with
  | list l => exact exceptMapM_ne dec hdec l
  | bytes b => simp

theorem decodeAccessItem_ne_len (acc : RlpItem) :
    decodeAccessItem acc ≠ .error .rlpIncorrectListLen := by
  unfold decodeAccessItem
  refine exceptBind_ne_error (itemCount_ne_len acc) fun n => ?_
  by_cases hn : n ≠ 2
  · simp [hn]
  · rw [if_neg hn]
    refine exceptBind_ne_error (valAt_ne_len _ _ _ (decFixed_ne_len 20)) fun addr => ?_
    refine exceptBind_ne_error (listAt_ne_len _ _ _ (decFixed_ne_len 32)) fun slots => ?_
    simp

theorem decodeAccessList_ne_len (it : RlpItem) :
    decodeAccessList it ≠ .error .rlpIncorrectListLen := by
  cases it with
  | bytes b => simp [decodeAccessList]
  | list l => exact exceptMapM_ne decodeAccessItem decodeAccessItem_ne_len l

/-- C2: decoding an outer RLP list with an item count other than 12 (9, 10,
11, ... included) fails with the wrong-field-count error
`RlpIncorrectListLen`, and with exactly 12 items the count check passes — no
later step of decode ever produces that error. -/
theorem tx_decode_field_count (l : List RlpItem) :
    (l.length ≠ 12 → UnverifiedTransaction.decode (.list l) = .error .rlpIncorrectListLen) ∧
    (l.length = 12 → UnverifiedTransaction.decode (.list l) ≠ .error .rlpIncorrectListLen) := by
  constructor
  · intro h
    simp only [UnverifiedTransaction.decode, itemCount, except_bind_ok, except_bindF_ok]
    rw [if_pos h]
  · intro h
    simp only [UnverifiedTransaction.decode, itemCount, except_bind_ok, except_bindF_ok]
    rw [if_neg (by omega)]
    refine exceptBind_ne_error (valAt_ne_len _ _ _ (decUint_ne_len 8)) fun cid => ?_
    refine exceptBind_ne_error (valAt_ne_len _ _ _ (decUint_ne_len 32)) fun nonce => ?_
    refine exceptBind_ne_error (valAt_ne_len _ _ _ (decUint_ne_len 32)) fun mpf => ?_
    refine exceptBind_ne_error (valAt_ne_len _ _ _ (decUint_ne_len 32)) fun gp => ?_
    refine exceptBind_ne_error (valAt_ne_len _ _ _ (decUint_ne_len 32)) fun gl => ?_
    refine exceptBind_ne_error (valAt_ne_len _ _ _ decAction_ne_len) fun act => ?_
    refine exceptBind_ne_error (valAt_ne_len _ _ _ (decUint_ne_len 32)) fun v => ?_
    refine exceptBind_ne_error (valAt_ne_len _ _ _ decBytes_ne_len) fun d => ?_
    refine exceptBind_ne_error (rlpAt_ne_len _ _) fun accl => ?_
    refine exceptBind_ne_error (decodeAccessList_ne_len accl) fun al => ?_
    refine exceptBind_ne_error (valAt_ne_len _ _ _ (decUint_ne_len 1)) fun sv => ?_
    refine exceptBind_ne_error (valAt_ne_len _ _ _ (decFixed_ne_len 32)) fun sr => ?_
    refine exceptBind_ne_error (valAt_ne_len _ _ _ (decFixed_ne_len 32)) fun ss => ?_
    simp

/-- C2 witness: a 9-item list is rejected with the wrong-field-count error. -/
theorem tx_decode_field_count_witness :
    UnverifiedTransaction.decode (.list (List.replicate 9 (.bytes [])))
      = .error .rlpIncorrectListLen :=
  (tx_decode_field_count (List.replicate 9 (.bytes []))).1 (by decide)

theorem exceptBind_ok_inv {ε α β : Type} {x : Except ε α} {f : α → Except ε β} {b : β}
    (h : x >>= f = .ok b) : ∃ a, x = .ok a ∧ f a = .ok b := by
  cases x with
  | ok a => exact ⟨a, rfl, h⟩
  | error e => simp at h

/-- C3: every byte sequence accepted by decode yields a value whose hash is
recomputed from the decoded fields plus chain id; the hash is a function of
the decoded fields only and is never taken from the input. -/
theorem tx_decode_hash_recomputed :
    ∀ (r : RlpItem) (utx : UnverifiedTransaction),
      UnverifiedTransaction.decode r = .ok utx →
      utx.hash = txHash utx.chain_id utx.unsigned := by
  intro r utx h
  simp only [UnverifiedTransaction.decode] at h
  obtain ⟨cnt, -, h⟩ := exceptBind_ok_inv h
  by_cases h12 : cnt ≠ 12
  · rw [if_pos h12] at h
    simp at h
  · rw [if_neg h12] at h
    obtain ⟨cid, -, h⟩ := exceptBind_ok_inv h
    obtain ⟨nonce, -, h⟩ := exceptBind_ok_inv h
    obtain ⟨mpf, -, h⟩ := exceptBind_ok_inv h
    obtain ⟨gp, -, h⟩ := exceptBind_ok_inv h
    obtain ⟨gl, -, h⟩ := exceptBind_ok_inv h
    obtain ⟨act, -, h⟩ := exceptBind_ok_inv h
    obtain ⟨v, -, h⟩ := exceptBind_ok_inv h
    obtain ⟨d, -, h⟩ := exceptBind_ok_inv h
    obtain ⟨accl, -, h⟩ := exceptBind_ok_inv h
    obtain ⟨al, -, h⟩ := exceptBind_ok_inv h
    obtain ⟨sv, -, h⟩ := exceptBind_ok_inv h
    obtain ⟨sr, -, h⟩ := exceptBind_ok_inv h
    obtain ⟨ss, -, h⟩ := exceptBind_ok_inv h
    injection h with h
    rw [← h]
    simp [UnverifiedTransaction.recomputeHash]

/-- C3 witness: the decode of the concrete signed sample's encoding carries
the recomputed hash. -/
theorem tx_decode_hash_recomputed_witness :
    sampleSignedTx.hash = txHash sampleSignedTx.chain_id sampleSignedTx.unsigned :=
  tx_decode_hash_recomputed (rlp_append sampleSignedTx) sampleSignedTx (by rfl)

theorem serGo_encAction (g : Nat) (a : TransactionAction) :
    serGo (g + 1) (encAction a) = serAction a := by
  cases a <;> rfl

theorem serGo_encAccessItem (g : Nat) (a : AccessListItem) :
    serGo (g + 3) (encAccessItem a) = serAccessItem a := by
  have hslots : (a.slots.map (encFixed 32)).map (serGo (g + 1)) = a.slots.map serSlot := by
    rw [List.map_map]
    apply List.map_congr_left
    intro x _
    rfl
  simp only [encAccessItem, serAccessItem, serGo, List.map_cons, List.map_nil, hslots]

theorem serGo_unsignedFields (g : Nat) (cid : Fin (256 ^ 8)) (t : Transaction) :
    (unsignedFieldItems cid t).map (serGo (g + 4)) = serUnsignedPayloads cid t := by
  have hacc : (t.access_list.map encAccessItem).map (serGo (g + 3))
      = t.access_list.map serAccessItem := by
    rw [List.map_map]
    apply List.map_congr_left
    intro x _
    exact serGo_encAccessItem g x
  simp only [unsignedFieldItems, serUnsignedPayloads, List.map_cons, List.map_nil,
    serGo, hacc, serGo_encAction]

theorem serGo_sigFields (g : Nat) (sig : Option SignatureComponents) :
    (sigFieldItems sig).map (serGo (g + 1)) = serSigPayloads sig := by
  cases sig <;> rfl

/-- C4: the encoder's byte output is the single discriminator byte 0x02
followed by the RLP serialization of a list whose item count is 12 when
signed and 9 when unsigned, with the fields in the fixed order chain id,
nonce, max-priority-fee, gas price, gas limit, action, value, data, access
list, then (if signed) recovery id, r, s; the serialization agrees with the
generic RLP tree serializer at every sufficient fuel. -/
theorem tx_encode_shape (tx : UnverifiedTransaction) :
    rlp_bytes tx = 2 :: serPayloads (serUnsignedPayloads tx.chain_id tx.unsigned
        ++ serSigPayloads tx.signature) ∧
    (∀ g : Nat, serGo (g + 5) (rlp_append tx)
        = serPayloads (serUnsignedPayloads tx.chain_id tx.unsigned
            ++ serSigPayloads tx.signature)) ∧
    rlp_append tx = .list (unsignedFieldItems tx.chain_id tx.unsigned
        ++ sigFieldItems tx.signature) ∧
    unsignedFieldItems tx.chain_id tx.unsigned
      = [encUint 8 tx.chain_id, encUint 32 tx.unsigned.nonce,
         encUint 32 tx.unsigned.max_priority_fee_per_gas,
         encUint 32 tx.unsigned.gas_price, encUint 32 tx.unsigned.gas_limit,
         encAction tx.unsigned.action, encUint 32 tx.unsigned.value,
         .bytes tx.unsigned.data,
         .list (tx.unsigned.access_list.map encAccessItem)] ∧
    sigFieldItems tx.signature
      = (match tx.signature with
         | some sg => [encUint 1 sg.standard_v, encFixed 32 sg.r, encFixed 32 sg.s]
         | none => []) ∧
    itemCount (rlp_append tx) = .ok (if tx.signature.isSome then 12 else 9) := by
  refine ⟨rfl, ?_, rfl, rfl, ?_, ?_⟩
  · intro g
    show serPayloads ((unsignedFieldItems tx.chain_id tx.unsigned
        ++ sigFieldItems tx.signature).map (serGo (g + 4))) = _
    rw [List.map_append, serGo_unsignedFields g tx.chain_id tx.unsigned]
    have hs : (sigFieldItems tx.signature).map (serGo (g + 4)) = serSigPayloads tx.signature :=
      serGo_sigFields (g + 3) tx.signature
    rw [hs]
  · cases tx.signature <;> rfl
  · cases hs : tx.signature <;>
      simp [rlp_append, itemCount, unsignedFieldItems, sigFieldItems, hs]

/-- C5: during decode each access-list entry must itself be a 2-item list —
a list entry with any other item count fails with the bad-access-list-entry
error (also end-to-end through a full 12-item decode), and a well-formed
entry decodes into the AccessListItem with that address and slot list. -/
theorem tx_decode_access_entries :
    (∀ es : List RlpItem, es.length ≠ 2 →
        decodeAccessItem (.list es) = .error (.custom "Unknown access list length")) ∧
    (∀ a : AccessListItem, decodeAccessItem (encAccessItem a) = .ok a) ∧
    UnverifiedTransaction.decode (.list [.bytes [], .bytes [], .bytes [], .bytes [],
        .bytes [], .bytes [], .bytes [], .bytes [],
        .list [.list [.bytes []]], .bytes [], .bytes [], .bytes []])
      = .error (.custom "Unknown access list length") := by
  refine ⟨?_, decodeAccessItem_enc, rfl⟩
  intro es h
  simp only [decodeAccessItem, itemCount, except_bind_ok, except_bindF_ok]
  rw [if_pos h]

/-- C5 witness: a 0-item entry is rejected with the bad-access-list-entry
error. -/
theorem tx_decode_access_entries_witness :
    decodeAccessItem (.list []) = .error (.custom "Unknown access list length") :=
  tx_decode_access_entries.1 [] (by decide)

/-- C6 counterexample: the canonical BlockId decoder does not map a
blockHash object to Hash — it rejects the blockHash key as unknown. -/
theorem block_id_decoding_cex :
    blockIdDeserialize (.obj [("blockHash",
        .str "0xaaaaaaaaaaaaaaaaaaaaaaaaaaaaaaaaaaaaaaaaaaaaaaaaaaaaaaaaaaaaaaaa"),
      ("requireCanonical", .bool true)])
      = .error (.custom "Unknown key: blockHash") := by rfl

/-- C6 (amended): the canonical BlockId decoder maps "latest" to Latest, a
0x-prefixed hex string to Num of the value after the prefix, and any other
string to the missing-hex-prefix error; an object is accepted only through a
leading "blockNumber" key, and any other first key — blockHash included —
fails with the unknown-key error.  The blockHash object form (with optional
requireCanonical) is instead accepted by the separate loose Web3BlockNumber
decoder, which maps it to its Hash variant. -/
theorem block_id_decoding :
    blockIdDeserialize (.str "latest") = .ok .latest ∧
    (∀ (s : String) (n : Nat), startsWith0x s = true →
        fromStrRadix16 (strDrop2 s) = some n →
        blockIdDeserialize (.str s) = .ok (.num n)) ∧
    (∀ s : String, startsWith0x s = false → s ≠ "latest" →
        blockIdDeserialize (.str s)
          = .error (.custom "Invalid block number: missing 0x prefix")) ∧
    (∀ (k : String) (v : Json) (rest : List (String × Json)), k ≠ "blockNumber" →
        blockIdDeserialize (.obj ((k, v) :: rest))
          = .error (.custom (String.append "Unknown key: " k))) ∧
    (∀ (hs : String) (h : Nat) (rc : Bool), parseH256 (.str hs) = some h →
        web3BlockNumberDeserialize
            (.obj [("blockHash", .str hs), ("requireCanonical", .bool rc)])
          = .ok (.hash h rc)) ∧
    (∀ (hs : String) (h : Nat), parseH256 (.str hs) = some h →
        web3BlockNumberDeserialize (.obj [("blockHash", .str hs)])
          = .ok (.hash h false)) := by
  refine ⟨rfl, ?_, ?_, ?_, ?_, ?_⟩
  · intro s n h1 h2
    by_cases hl : s = "latest"
    · subst hl
      exact absurd h1 (by decide)
    · simp only [blockIdDeserialize, blockIdVisitStr]
      rw [if_neg hl, if_pos h1, h2]
  · intro s h1 h2
    simp only [blockIdDeserialize, blockIdVisitStr]
    rw [if_neg h2, if_neg (by simp [h1])]
  · intro k v rest hk
    simp only [blockIdDeserialize, blockIdVisitMap]
    rw [if_neg hk]
  · intro hs h rc hpar
    simp [web3BlockNumberDeserialize, wbnVisitMap, hpar]
  · intro hs h hpar
    simp [web3BlockNumberDeserialize, wbnVisitMap, hpar]

/-- C6 witness: concrete decodes for the hex, object, and loose-decoder
clauses. -/
theorem block_id_decoding_witness :
    blockIdDeserialize (.str "0x10") = .ok (.num 16) ∧
    blockIdDeserialize (.str "10")
      = .error (.custom "Invalid block number: missing 0x prefix") ∧
    web3BlockNumberDeserialize (.obj [("blockHash",
        .str "0xaaaaaaaaaaaaaaaaaaaaaaaaaaaaaaaaaaaaaaaaaaaaaaaaaaaaaaaaaaaaaaaa"),
      ("requireCanonical", .bool true)])
      = .ok (.hash 77194726158210796949047323339125271902179989777093709359638389338608753093290 true) :=
  ⟨block_id_decoding.2.1 "0x10" 16 (by decide) (by decide),
   block_id_decoding.2.2.1 "10" (by decide) (by decide),
   block_id_decoding.2.2.2.2.1
     "0xaaaaaaaaaaaaaaaaaaaaaaaaaaaaaaaaaaaaaaaaaaaaaaaaaaaaaaaaaaaaaaaa"
     77194726158210796949047323339125271902179989777093709359638389338608753093290
     true (by decide)⟩

/-- C7: a supplied block hash collapses both canonical bounds to Hash of that
hash regardless of the supplied from/to identifiers; otherwise the from/to
identifiers map through num_to_id (Hash and Num unchanged, Latest and Pending
both to Latest) and omitted bounds default to Latest. -/
theorem filter_block_canonicalization (f : ChangeWeb3Filter) :
    (∀ h : Nat, f.block_hash = some h →
        (f.try_into).from_block = .hash h ∧ (f.try_into).to_block = .hash h) ∧
    (f.block_hash = none →
        (f.try_into).from_block
          = (match f.from_block with
             | none => .latest
             | some b => num_to_id b) ∧
        (f.try_into).to_block
          = (match f.to_block with
             | none => .latest
             | some b => num_to_id b)) ∧
    (∀ (h : Nat) (rc : Bool), num_to_id (.hash h rc) = .hash h) ∧
    (∀ n : Nat, num_to_id (.num n) = .num n) ∧
    num_to_id .latest = .latest ∧
    num_to_id .pending = .latest := by
  refine ⟨?_, ?_, fun _ _ => rfl, fun _ => rfl, rfl, rfl⟩
  · intro h hh
    constructor <;> simp [ChangeWeb3Filter.try_into, hh]
  · intro hh
    constructor <;> simp [ChangeWeb3Filter.try_into, hh]

/-- C7 witness: with a block hash supplied, a Pending from-identifier and a
numeric to-identifier are both overridden. -/
theorem filter_block_canonicalization_witness :
    (sampleFilterWithHash.try_into).from_block = .hash 99 ∧
    (sampleFilterWithHash.try_into).to_block = .hash 99 :=
  (filter_block_canonicalization sampleFilterWithHash).1 99 rfl

theorem four_slots_pad (m : List (Option (List Nat))) (hm : m.length ≤ 4) :
    [m.getD 0 none, m.getD 1 none, m.getD 2 none, m.getD 3 none]
      = m ++ List.replicate (4 - m.length) none := by
  rcases m with _ | ⟨a, _ | ⟨b, _ | ⟨c, _ | ⟨d, rest⟩⟩⟩⟩
  · rfl
  · rfl
  · rfl
  · rfl
  · cases rest with
    | nil => rfl
    | cons e rest2 =>
      simp at hm

/-- C8: the canonicalized filter's topics always have length exactly 4 — at
most the first four supplied entries are kept (the rest discarded), each kept
entry expands Null/Single/Multiple to none/one/set, and missing trailing
slots are filled with the match-any value none. -/
theorem filter_topics_four_slots (f : ChangeWeb3Filter) :
    (f.try_into).topics.length = 4 ∧
    (f.try_into).topics
      = ((f.topics.getD []).take 4).map variadicToVecOpt
          ++ List.replicate
              (4 - (((f.topics.getD []).take 4).map variadicToVecOpt).length) none ∧
    variadicToVecOpt (.null : VariadicValue Nat) = none ∧
    (∀ t : Nat, variadicToVecOpt (.single t) = some [t]) ∧
    (∀ ts : List Nat, variadicToVecOpt (.multiple ts) = some ts) := by
  refine ⟨rfl, ?_, rfl, fun _ => rfl, fun _ => rfl⟩
  cases hts : f.topics with
  | none => simp [ChangeWeb3Filter.try_into, hts]
  | some ts =>
    have hlen : ((ts.take 4).map variadicToVecOpt).length ≤ 4 := by
      simp [List.length_map, List.length_take]
    have := four_slots_pad ((ts.take 4).map variadicToVecOpt) hlen
    simpa [ChangeWeb3Filter.try_into, hts] using this

/-- C9: the VariadicValue decoder maps JSON null to Null; otherwise it tries
the scalar parse first (Single on success), only then the array parse
(Multiple), and it fails with the invalid-variadic error exactly when both
parses fail. -/
theorem variadic_decoding {α : Type} (p : Json → Option α) (v : Json) :
    (v.isNull = true → variadicFromJson p v = .ok .null) ∧
    (v.isNull = false → ∀ t, p v = some t → variadicFromJson p v = .ok (.single t)) ∧
    (v.isNull = false → p v = none → ∀ ts, arrayParse p v = some ts →
        variadicFromJson p v = .ok (.multiple ts)) ∧
    (variadicFromJson p v = .error (.custom "Invalid variadic value type") ↔
        v.isNull = false ∧ p v = none ∧ arrayParse p v = none) := by
  refine ⟨?_, ?_, ?_, ?_, ?_⟩
  · intro h
    simp [variadicFromJson, h]
  · intro h t hp
    simp [variadicFromJson, h, hp]
  · intro h hp ts ha
    simp [variadicFromJson, h, hp, ha]
  · intro hmain
    by_cases h1 : v.isNull = true
    · simp [variadicFromJson, h1] at hmain
    · have h1f : v.isNull = false := by simpa using h1
      cases h2 : p v with
      | some t => simp [variadicFromJson, h1f, h2] at hmain
      | none =>
        cases h3 : arrayParse p v with
        | some ts => simp [variadicFromJson, h1f, h2, h3] at hmain
        | none => exact ⟨h1f, rfl, rfl⟩
  · rintro ⟨h1, h2, h3⟩
    simp [variadicFromJson, h1, h2, h3]

/-- C9 witness: a scalar parses as Single, an array as Multiple. -/
theorem variadic_decoding_witness :
    variadicFromJson sampleIntParse (.num 3) = .ok (.single 3) ∧
    variadicFromJson sampleIntParse (.arr [.num 1, .num 2]) = .ok (.multiple [1, 2]) :=
  ⟨(variadic_decoding sampleIntParse (.num 3)).2.1 rfl 3 rfl,
   (variadic_decoding sampleIntParse (.arr [.num 1, .num 2])).2.2.1 rfl rfl [1, 2] rfl⟩

/-- C10: block_number_to_id panics (modelled as none) exactly on Pending, and
maps every other variant without panicking: Hash to Hash, Num to Number,
Earliest to Earliest, Latest to Latest. -/
theorem block_number_to_id_pending_panics :
    (∀ (h : Nat) (rc : Bool), block_number_to_id (.hash h rc) = some (.hash h)) ∧
    (∀ n : Nat, block_number_to_id (.num n) = some (.number n)) ∧
    block_number_to_id .earliest = some .earliest ∧
    block_number_to_id .latest = some .latest ∧
    (∀ b : WbBlockNumber, block_number_to_id b = none ↔ b = .pending) := by
  refine ⟨fun _ _ => rfl, fun _ => rfl, rfl, rfl, ?_⟩
  intro b
  cases b <;> simp [block_number_to_id]
